import Mathlib

/-!
# Verification of the two-tier file-system cache (`caches/fileSystem.go`)

Shallow embedding of the cache in `fileSystem.go`:

* The consolidated JSON index (`entries.json`) is modelled by `IndexFile`:
  it is either missing, unreadable (I/O error on read), malformed (its
  bytes are not valid JSON at the top level, so `json.Unmarshal` leaves
  the target map empty), valid JSON of the wrong shape (`json.Unmarshal`
  errors but leaves the map partially populated with whatever entries it
  could decode), or a parsed association list of entries.
* The sharded file tier is a list of `ShardFile`s; a file living at
  `root/d1/d2/name` is recorded by its three path components together
  with its content and modification time.  Failure-injection flags
  (`readFails`, `removeFails`, the state's `dirFailures`) model the I/O
  errors the Go code handles during `Prune`.
* Time is `Int` nanoseconds (Go `time.Time` / `time.Duration`);
  `time.Duration` arithmetic wraps at 64 bits (`wrap64`) and
  `time.Time.Sub` saturates (`satSub64`).
* Go byte slices that the code converts to and from strings (digest
  hex encoding, entry content) are modelled as `List Nat` (bytes) and
  `String` respectively.

Every definition is translated from the Go source; functions with
side effects on disk become explicit state passing on `FsState`, and
fallible functions return `Except String`.
-/

/-- A cache entry of the consolidated index: `Entry` in the source
(`content` string, `last_used` timestamp, here `Int` nanoseconds). -/
structure Entry where
  content : String
  lastUsed : Int
  deriving DecidableEq, Repr

/-- `Entries`: the consolidated map from hex digest to entry, modelled as
an association list with unique keys. -/
abbrev Entries := List (String × Entry)

/-- Map lookup on the association list (Go `entries[key]`). -/
def lookupE (es : Entries) (k : String) : Option Entry :=
  (es.find? (fun p => p.1 = k)).map (fun p => p.2)

/-- Map insert/overwrite on the association list (Go `entries[key] = v`). -/
def insertE (es : Entries) (k : String) (v : Entry) : Entries :=
  (k, v) :: es.filter (fun p => p.1 ≠ k)

/-- State of the consolidated index file `entries.json` on disk. -/
inductive IndexFile where
  /-- the file does not exist (`os.Stat` reports not-exist) -/
  | missing
  /-- the file exists but `ioutil.ReadFile` fails -/
  | unreadable
  /-- the file exists and is readable but its bytes are not valid JSON,
  so `json.Unmarshal` errors out leaving the freshly made map empty -/
  | malformed
  /-- the file is readable and valid JSON but not of the expected
  shape: `json.Unmarshal` returns an error, yet it "completes the
  unmarshaling as best it can", leaving in the map the given entries it
  managed to decode (possibly none, possibly many) -/
  | badSchema (entries : Entries)
  /-- the file parses to the given entries -/
  | ok (entries : Entries)
  deriving DecidableEq, Repr

/-- One file of the sharded tier, at `root/d1/d2/name`.  `readFails` and
`removeFails` inject the per-file I/O errors `Prune` tolerates. -/
structure ShardFile where
  d1 : String
  d2 : String
  name : String
  content : String
  modTime : Int
  readFails : Bool := false
  removeFails : Bool := false
  deriving DecidableEq, Repr

/-- The on-disk state of the cache root. -/
structure FsState where
  index : IndexFile
  files : List ShardFile
  /-- names of the top-level directories under the cache root -/
  topDirs : List String
  /-- top-level directories whose `os.RemoveAll` fails -/
  dirFailures : List String
  deriving DecidableEq, Repr

/-- Signed 64-bit wrap-around, for Go `int` / `time.Duration` arithmetic. -/
def wrap64 (n : Int) : Int := (n + 2 ^ 63) % 2 ^ 64 - 2 ^ 63

/-- Saturating 64-bit subtraction: Go `time.Time.Sub` clamps a result
that does not fit in a `Duration` to the maximal/minimal duration. -/
def satSub64 (a b : Int) : Int :=
  max (-(2 ^ 63)) (min (2 ^ 63 - 1) (a - b))

/-- A lowercase hexadecimal digit, as produced by `encoding/hex`. -/
def hexDigit (n : Nat) : Char :=
  if n < 10 then Char.ofNat (48 + n) else Char.ofNat (87 + n)

/-- The two lowercase hex characters of one byte. -/
def hexByte (b : Nat) : List Char :=
  [hexDigit (b % 256 / 16), hexDigit (b % 16)]

/-- `hex.EncodeToString`: lowercase hex encoding of a byte slice. -/
def hexEncode (digest : List Nat) : String :=
  String.mk (digest.map hexByte).flatten

/-- Go `path.Join` of two components, for already-clean components. -/
def pathJoin (a b : String) : String :=
  if a = "" then b else if b = "" then a else a ++ "/" ++ b

/-- The three path components `(hex[0:2], hex[2:4], hex[4:])` under which
an entry file for `digest` lives; the file at `root/a/b/c` is the
`ShardFile` with components `(a, b, c)`. -/
def shardTriple (digest : List Nat) : String × String × String :=
  let e := hexEncode digest
  (e.take 2, (e.drop 2).take 2, e.drop 4)

/-- `defineEntryPath`: the shard directory and entry path for a digest. -/
def defineEntryPath (root : String) (digest : List Nat) : String × String :=
  let t := shardTriple digest
  let entryRoot := pathJoin (pathJoin root t.1) t.2.1
  let entryPath := pathJoin entryRoot t.2.2
  (entryRoot, entryPath)

/-- Locate the sharded file with the given path components. -/
def findFile (files : List ShardFile) (t : String × String × String) :
    Option ShardFile :=
  files.find? (fun f => f.d1 = t.1 ∧ f.d2 = t.2.1 ∧ f.name = t.2.2)

/-- `readJson`: load the consolidated index.  Returns the entries map
together with whether a warning was printed.  Errors never propagate:
a missing file is an empty map, a read failure logs a warning and
returns an explicit empty map, and an `Unmarshal` error logs a warning
and returns `entries` as the decoder left it — empty after a syntax
error, but the partially decoded (possibly non-empty) map after a
schema error. -/
def readJson : IndexFile → Entries × Bool
  | .missing => ([], false)
  | .unreadable => ([], true)
  | .malformed => ([], true)
  | .badSchema es => (es, true)
  | .ok es => (es, false)

/-- `SaveEntry`: write `content` to the entry file of `digest`, creating
the shard directories; the fresh file's modification time is `now`.
(Directory creation and file write are modelled as succeeding; no claim
concerns their failure.) -/
def SaveEntry (digest : List Nat) (content : String) (now : Int)
    (s : FsState) : FsState :=
  let t := shardTriple digest
  let f : ShardFile :=
    { d1 := t.1, d2 := t.2.1, name := t.2.2, content := content,
      modTime := now }
  { s with
    files := f :: s.files.filter
      (fun g => ¬(g.d1 = t.1 ∧ g.d2 = t.2.1 ∧ g.name = t.2.2)),
    topDirs :=
      if t.1 ∈ s.topDirs then s.topDirs else t.1 :: s.topDirs }

/-- `checkJsonEntry`: look the digest up in the consolidated index; on a
hit, re-save the entry (which writes the sharded tier, refreshing that
file's modification time) and return the content. -/
def checkJsonEntry (digest : List Nat) (now : Int) (s : FsState) :
    Option String × FsState :=
  let entries := (readJson s.index).1
  match lookupE entries (hexEncode digest) with
  | none => (none, s)
  | some entry => (some entry.content, SaveEntry digest entry.content now s)

/-- `checkFsEntry`: look for the entry file of `digest` in the sharded
tier; a missing file is `none` (not an error); a read failure is an
error. -/
def checkFsEntry (digest : List Nat) (s : FsState) :
    Except String (Option String) :=
  match findFile s.files (shardTriple digest) with
  | none => .ok none
  | some f => if f.readFails then .error "read error" else .ok (some f.content)

/-- `FindEntry`: consult the consolidated index first, falling back to
the sharded tier. -/
def FindEntry (digest : List Nat) (now : Int) (s : FsState) :
    Except String (Option String) × FsState :=
  match checkJsonEntry digest now s with
  | (some content, s1) => (.ok (some content), s1)
  | (none, s1) => (checkFsEntry digest s1, s1)

/-- The key `Prune` reconstructs for a file: the two parent directory
names concatenated with the file name. -/
def shardKey (f : ShardFile) : String := f.d1 ++ f.d2 ++ f.name

/-- The body of `Prune`'s `filepath.Walk`: for each file, read and
upsert it into the entries map then delete it; a read failure logs and
skips the file, a delete failure logs and leaves the file in place. -/
def migrate (es : Entries) : List ShardFile → Entries × List ShardFile
  | [] => (es, [])
  | f :: fs =>
    if f.readFails then
      ((migrate es fs).1, f :: (migrate es fs).2)
    else
      let es' := insertE es (shardKey f) ⟨f.content, f.modTime⟩
      ((migrate es' fs).1,
        if f.removeFails then f :: (migrate es' fs).2 else (migrate es' fs).2)

/-- `Prune`'s directory cleanup: `os.RemoveAll` each top-level directory
in turn; a failure is fatal.  Returns the remaining directories and
files on success. -/
def removeDirs (fails : List String) :
    List String → List ShardFile → Except String (List String × List ShardFile)
  | [], files => .ok ([], files)
  | d :: ds, files =>
    if d ∈ fails then .error "Error deleting path"
    else removeDirs fails ds (files.filter (fun f => f.d1 ≠ d))

/-- `time.Duration(numWeeks*7*24) * time.Hour` in nanoseconds, with
Go's 64-bit wrap-around on both multiplications. -/
def durationNs (numWeeks : Int) : Int :=
  wrap64 (wrap64 (numWeeks * 7 * 24) * 3600000000000)

/-- The retention test of `Prune`: `now.Sub(value.LastUsed) <= duration`. -/
def keepEntry (now dur : Int) (e : Entry) : Bool :=
  satSub64 now e.lastUsed ≤ dur

/-- `Prune`: load the index, migrate every sharded file into it, delete
the shard directories (fatally on failure), evict entries last used
more than `numWeeks` weeks ago, and write the index back. -/
def Prune (numWeeks : Int) (now : Int) (s : FsState) :
    Except String FsState :=
  match removeDirs s.dirFailures s.topDirs
      (migrate (readJson s.index).1 s.files).2 with
  | .error e => .error e
  | .ok (dirs2, files2) =>
    .ok { index := .ok ((migrate (readJson s.index).1 s.files).1.filter
            (fun p => keepEntry now (durationNs numWeeks) p.2)),
          files := files2, topDirs := dirs2,
          dirFailures := s.dirFailures }

/-! ## Basic lemmas about the association-list index -/

theorem lookupE_insertE_self (es : Entries) (k : String) (v : Entry) :
    lookupE (insertE es k v) k = some v := by
  simp [lookupE, insertE, List.find?_cons]

theorem find_filter_ne_key (es : Entries) (k k' : String) (h : k' ≠ k) :
    (es.filter (fun p => p.1 ≠ k)).find? (fun p => p.1 = k')
      = es.find? (fun p => p.1 = k') := by
  induction es with
  | nil => rfl
  | cons p ps ih =>
    by_cases hp : p.1 = k
    · rw [List.filter_cons_of_neg (by simp [hp]), ih,
        List.find?_cons_of_neg _ (by simp [hp]; exact Ne.symm h)]
    · rw [List.filter_cons_of_pos (by simp [hp])]
      by_cases hk2 : p.1 = k'
      · rw [List.find?_cons_of_pos _ (by simp [hk2]),
          List.find?_cons_of_pos _ (by simp [hk2])]
      · rw [List.find?_cons_of_neg _ (by simp [hk2]),
          List.find?_cons_of_neg _ (by simp [hk2]), ih]

theorem lookupE_insertE_ne (es : Entries) (k k' : String) (v : Entry)
    (h : k' ≠ k) : lookupE (insertE es k v) k' = lookupE es k' := by
  simp only [lookupE, insertE]
  rw [List.find?_cons_of_neg _ (by simpa using Ne.symm h)]
  rw [find_filter_ne_key es k k' h]

theorem lookupE_none_filter (es : Entries) (k : String)
    (q : String × Entry → Bool) (h : lookupE es k = none) :
    lookupE (es.filter q) k = none := by
  simp only [lookupE, Option.map_eq_none', List.find?_eq_none] at h ⊢
  intro p hp
  exact h p (List.mem_of_mem_filter hp)

/-! ## 64-bit arithmetic lemmas -/

theorem wrap64_eq_of_bounds (n : Int) (h1 : -(2 ^ 63) ≤ n)
    (h2 : n ≤ 2 ^ 63 - 1) : wrap64 n = n := by
  unfold wrap64
  rw [Int.emod_eq_of_lt (by linarith) (by norm_num; linarith)]
  ring

theorem satSub64_eq_of_bounds (a b : Int) (h1 : -(2 ^ 63) ≤ a - b)
    (h2 : a - b ≤ 2 ^ 63 - 1) : satSub64 a b = a - b := by
  unfold satSub64
  omega

/-! ## Lemmas about `migrate` and `removeDirs` -/

theorem migrate_cons_read_fail (f : ShardFile) (fs : List ShardFile)
    (es : Entries) (h : f.readFails = true) :
    migrate es (f :: fs) = ((migrate es fs).1, f :: (migrate es fs).2) := by
  simp [migrate, h]

theorem migrate_cons_read_ok (f : ShardFile) (fs : List ShardFile)
    (es : Entries) (h : f.readFails = false) :
    migrate es (f :: fs) =
      ((migrate (insertE es (shardKey f) ⟨f.content, f.modTime⟩) fs).1,
        if f.removeFails then
          f :: (migrate (insertE es (shardKey f) ⟨f.content, f.modTime⟩) fs).2
        else (migrate (insertE es (shardKey f) ⟨f.content, f.modTime⟩) fs).2) := by
  simp [migrate, h]

theorem migrate_snd_subset (fs : List ShardFile) :
    ∀ es : Entries, ∀ f ∈ (migrate es fs).2, f ∈ fs := by
  induction fs with
  | nil => intro es f hf; simp [migrate] at hf
  | cons g gs ih =>
    intro es f hf
    by_cases hr : g.readFails
    · rw [migrate_cons_read_fail g gs es hr] at hf
      rcases List.mem_cons.mp hf with hf1 | hf1
      · exact hf1 ▸ List.mem_cons_self g gs
      · exact List.mem_cons_of_mem g (ih es f hf1)
    · rw [migrate_cons_read_ok g gs es (by simpa using hr)] at hf
      by_cases hrm : g.removeFails
      · rw [if_pos hrm] at hf
        rcases List.mem_cons.mp hf with hf1 | hf1
        · exact hf1 ▸ List.mem_cons_self g gs
        · exact List.mem_cons_of_mem g (ih _ f hf1)
      · rw [if_neg hrm] at hf
        exact List.mem_cons_of_mem g (ih _ f hf)

theorem migrate_fst_lookup_untouched (fs : List ShardFile) :
    ∀ es : Entries, ∀ k : String,
      (∀ f ∈ fs, shardKey f ≠ k ∨ f.readFails = true) →
      lookupE (migrate es fs).1 k = lookupE es k := by
  induction fs with
  | nil => intro es k _; rfl
  | cons g gs ih =>
    intro es k h
    by_cases hr : g.readFails
    · rw [migrate_cons_read_fail g gs es hr]
      exact ih es k (fun f hf => h f (List.mem_cons_of_mem g hf))
    · rw [migrate_cons_read_ok g gs es (by simpa using hr)]
      have hkey : shardKey g ≠ k := by
        rcases h g (List.mem_cons_self g gs) with hk | hfl
        · exact hk
        · exact absurd hfl hr
      show lookupE (migrate (insertE es (shardKey g) _) gs).1 k = lookupE es k
      rw [ih _ k (fun f hf => h f (List.mem_cons_of_mem g hf))]
      exact lookupE_insertE_ne es (shardKey g) k _ (Ne.symm hkey)

theorem migrate_fst_lookup_mem (fs : List ShardFile) :
    ∀ es : Entries, ∀ f ∈ fs,
      (fs.map shardKey).Nodup →
      (∀ g ∈ fs, g.readFails = false) →
      lookupE (migrate es fs).1 (shardKey f)
        = some ⟨f.content, f.modTime⟩ := by
  induction fs with
  | nil => intro es f hf; simp at hf
  | cons g gs ih =>
    intro es f hf hnd hr
    have hgr : g.readFails = false := hr g (List.mem_cons_self g gs)
    rw [migrate_cons_read_ok g gs es hgr]
    simp only [List.map_cons, List.nodup_cons] at hnd
    rcases List.mem_cons.mp hf with hfg | hfgs
    · subst hfg
      show lookupE (migrate (insertE es (shardKey f) _) gs).1 (shardKey f) = _
      rw [migrate_fst_lookup_untouched gs _ (shardKey f)
        (fun x hx =>
          Or.inl (fun hxk => hnd.1 (hxk ▸ List.mem_map_of_mem shardKey hx)))]
      exact lookupE_insertE_self es (shardKey f) _
    · exact ih _ f hfgs hnd.2 (fun x hx => hr x (List.mem_cons_of_mem g hx))

theorem removeDirs_ok_empty (fails : List String) (ds : List String) :
    ∀ files : List ShardFile,
      (∀ d ∈ ds, d ∉ fails) →
      (∀ f ∈ files, f.d1 ∈ ds) →
      removeDirs fails ds files = .ok ([], []) := by
  induction ds with
  | nil =>
    intro files _ hf
    have : files = [] := by
      cases files with
      | nil => rfl
      | cons f fs => exact absurd (hf f (List.mem_cons_self f fs)) (by simp)
    rw [this]; rfl
  | cons d ds ih =>
    intro files h hf
    simp only [removeDirs, if_neg (h d (List.mem_cons_self d ds))]
    apply ih
    · exact fun d' hd' => h d' (List.mem_cons_of_mem d hd')
    · intro f hfm
      have hm := List.mem_filter.mp hfm
      have := hf f hm.1
      rcases List.mem_cons.mp this with h1 | h1
      · exact absurd h1 (by simpa using hm.2)
      · exact h1

theorem filter_idem (es : Entries) (p : String × Entry → Bool) :
    (es.filter p).filter p = es.filter p := by
  induction es with
  | nil => rfl
  | cons q qs ih =>
    by_cases hq : p q
    · rw [List.filter_cons_of_pos hq, List.filter_cons_of_pos hq, ih]
    · rw [List.filter_cons_of_neg hq, ih]

/-! ## Claim theorems -/

/-- C4: for a retention window of `W` whole weeks (converted to the
duration `W*7*24` hours) and an index entry last used at `T`, `Prune`
keeps the entry iff `now - T ≤ W` weeks; the boundary `now - T = W`
weeks is inclusive (kept), strictly older entries are dropped.  The
bounds keep the Go `Duration` arithmetic away from 64-bit overflow and
`time.Time.Sub` away from saturation, so the comparison is exact. -/
theorem prune_retention_boundary (W now T : Int) (k c : String)
    (es : Entries) (fails : List String)
    (h0 : 0 ≤ W) (h1 : W * 604800000000000 ≤ 2 ^ 63 - 1)
    (h2 : -(2 ^ 63) ≤ now - T) (h3 : now - T ≤ 2 ^ 63 - 1) :
    ∃ pruned : Entries,
      Prune W now ⟨.ok es, [], [], fails⟩ = .ok ⟨.ok pruned, [], [], fails⟩ ∧
      ((k, ⟨c, T⟩) ∈ pruned ↔
        (k, ⟨c, T⟩) ∈ es ∧ now - T ≤ W * 7 * 24 * 3600000000000) := by
  have hdur : durationNs W = W * 604800000000000 := by
    have hb : W * 168 ≤ 2 ^ 63 - 1 := by nlinarith
    have e1 : wrap64 (W * 7 * 24) = W * 168 := by
      rw [show W * 7 * 24 = W * 168 by ring]
      exact wrap64_eq_of_bounds _ (by nlinarith) hb
    unfold durationNs
    rw [e1, wrap64_eq_of_bounds _ (by nlinarith) (by nlinarith)]
    ring
  refine ⟨es.filter (fun p => keepEntry now (durationNs W) p.2), ?_, ?_⟩
  · rfl
  · rw [List.mem_filter]
    constructor
    · rintro ⟨hm, hk⟩
      refine ⟨hm, ?_⟩
      simp only [keepEntry, hdur, decide_eq_true_eq] at hk
      rw [satSub64_eq_of_bounds now T h2 h3] at hk
      linarith [hk]
    · rintro ⟨hm, hle⟩
      refine ⟨hm, ?_⟩
      simp only [keepEntry, hdur, decide_eq_true_eq]
      rw [satSub64_eq_of_bounds now T h2 h3]
      linarith
/-- Witness for C4 at `W = 1` week, an entry exactly one week old. -/
theorem prune_retention_boundary_witness :
    (0 : Int) ≤ 1 ∧ (1 : Int) * 604800000000000 ≤ 2 ^ 63 - 1 ∧
    -(2 ^ 63 : Int) ≤ 604800000000000 - 0 ∧
    (604800000000000 : Int) - 0 ≤ 2 ^ 63 - 1 ∧
    ∃ pruned : Entries,
      Prune 1 604800000000000 ⟨.ok [("abcdef", ⟨"x", 0⟩)], [], [], []⟩ =
        .ok ⟨.ok pruned, [], [], []⟩ ∧
      (("abcdef", (⟨"x", 0⟩ : Entry)) ∈ pruned ↔
        ("abcdef", (⟨"x", 0⟩ : Entry)) ∈ [("abcdef", (⟨"x", 0⟩ : Entry))] ∧
          (604800000000000 : Int) - 0 ≤ 1 * 7 * 24 * 3600000000000) :=
  ⟨by norm_num, by norm_num, by norm_num, by norm_num,
    prune_retention_boundary 1 604800000000000 0 "abcdef" "x"
      [("abcdef", ⟨"x", 0⟩)] [] (by norm_num) (by norm_num) (by norm_num)
      (by norm_num)⟩

/-- C5 counterexample: an index file that is valid JSON but not of the
expected shape — e.g. `{"aa": {…valid…}, "bb": 5}` — makes
`json.Unmarshal` fail *after* decoding the entry for `"aa"`:
`readJson` warns but returns the non-empty partially decoded map, not
an empty index, and a subsequent lookup of digest `aa` is a full cache
hit rather than the miss the claim requires. -/
theorem readJson_bad_schema_cex :
    readJson (.badSchema [("aa", Entry.mk "x" 0)])
      = ([("aa", Entry.mk "x" 0)], true) ∧
    ([("aa", Entry.mk "x" 0)] : Entries) ≠ [] ∧
    (FindEntry [170] 5
        (FsState.mk (.badSchema [("aa", Entry.mk "x" 0)]) [] [] [])).1
      = .ok (some "x") :=
  ⟨rfl, by decide, rfl⟩

/-- C5 (amended): loading the consolidated index never raises a fatal
error — `readJson` is total, with no error result at all.  A missing
file yields the empty index with no warning (normal first-run state);
an unreadable file or syntactically invalid JSON yields the empty
index with a warning on the side channel; but a readable file that is
valid JSON of the wrong shape yields a warning together with the
*partially decoded* map, which may be non-empty — those entries remain
visible, so such lookups are hits, not misses. -/
theorem readJson_best_effort :
    readJson .missing = ([], false) ∧
    readJson .unreadable = ([], true) ∧
    readJson .malformed = ([], true) ∧
    ∀ es : Entries, readJson (.badSchema es) = (es, true) :=
  ⟨rfl, rfl, rfl, fun _ => rfl⟩

/-- C7: a digest absent from both the consolidated index and the
sharded file tier makes `FindEntry` return the absent result `none`
with no error, leaving the state unchanged. -/
theorem findEntry_absent (digest : List Nat) (now : Int) (s : FsState)
    (hIdx : lookupE (readJson s.index).1 (hexEncode digest) = none)
    (hFs : findFile s.files (shardTriple digest) = none) :
    FindEntry digest now s = (.ok none, s) := by
  simp only [FindEntry, checkJsonEntry, hIdx, checkFsEntry, hFs]
/-- Witness for C7: a fresh cache (no index file, no sharded files)
misses on a concrete digest. -/
theorem findEntry_absent_witness :
    lookupE (readJson (FsState.mk .missing [] [] []).index).1
        (hexEncode [171, 205, 239]) = none ∧
    findFile (FsState.mk .missing [] [] []).files
        (shardTriple [171, 205, 239]) = none ∧
    FindEntry [171, 205, 239] 0 (FsState.mk .missing [] [] []) =
      (.ok none, FsState.mk .missing [] [] []) :=
  ⟨rfl, rfl, findEntry_absent [171, 205, 239] 0 _ rfl rfl⟩

/-- C1 counterexample: digest `abcdef` lives only in the sharded tier;
`FindEntry` returns the fallback hit `"hello"`, yet the consolidated
index afterwards still has no entry for it — the hit is not migrated
forward. -/
theorem findEntry_fs_hit_not_migrated_cex :
    (FindEntry [171, 205, 239] 5
        (FsState.mk (.ok [])
          [ShardFile.mk "ab" "cd" "ef" "hello" 0 false false] ["ab"] [])).1
      = .ok (some "hello") ∧
    lookupE
      (readJson (FindEntry [171, 205, 239] 5
        (FsState.mk (.ok [])
          [ShardFile.mk "ab" "cd" "ef" "hello" 0 false false]
          ["ab"] [])).2.index).1
      (hexEncode [171, 205, 239]) = none :=
  ⟨rfl, rfl⟩

/-- C1 (amended): after `FindEntry` returns a hit from the sharded
tier, the whole state — in particular the consolidated index — is
unchanged; no migration into the index happens on a fallback hit
(entries only enter the index through `Prune`). -/
theorem findEntry_fs_hit_no_migration (digest : List Nat) (now : Int)
    (s : FsState) (f : ShardFile)
    (hIdx : lookupE (readJson s.index).1 (hexEncode digest) = none)
    (hFile : findFile s.files (shardTriple digest) = some f)
    (hRead : f.readFails = false) :
    FindEntry digest now s = (.ok (some f.content), s) := by
  simp only [FindEntry, checkJsonEntry, hIdx, checkFsEntry, hFile, hRead]
  simp
/-- Witness for the amended C1 on a concrete sharded-tier-only state. -/
theorem findEntry_fs_hit_no_migration_witness :
    lookupE (readJson (FsState.mk (.ok [])
        [ShardFile.mk "ab" "cd" "ef" "hello" 0 false false]
        ["ab"] []).index).1 (hexEncode [171, 205, 239]) = none ∧
    findFile (FsState.mk (.ok [])
        [ShardFile.mk "ab" "cd" "ef" "hello" 0 false false]
        ["ab"] []).files (shardTriple [171, 205, 239])
      = some (ShardFile.mk "ab" "cd" "ef" "hello" 0 false false) ∧
    FindEntry [171, 205, 239] 5
        (FsState.mk (.ok [])
          [ShardFile.mk "ab" "cd" "ef" "hello" 0 false false] ["ab"] [])
      = (.ok (some "hello"),
         FsState.mk (.ok [])
           [ShardFile.mk "ab" "cd" "ef" "hello" 0 false false] ["ab"] []) :=
  ⟨rfl, by decide,
    findEntry_fs_hit_no_migration [171, 205, 239] 5
      (FsState.mk (.ok [])
        [ShardFile.mk "ab" "cd" "ef" "hello" 0 false false] ["ab"] [])
      (ShardFile.mk "ab" "cd" "ef" "hello" 0 false false)
      rfl (by decide) rfl⟩

/-- C2 counterexample: digest `abcdef` is in the consolidated index
with `lastUsed = 0`; `FindEntry` at `now = 5` returns the content, but
the index afterwards is byte-identical to before — its `lastUsed` is
still `0`, not the refreshed `5` the claim requires. -/
theorem findEntry_index_hit_no_index_rewrite_cex :
    (FindEntry [171, 205, 239] 5
        (FsState.mk (.ok [("abcdef", Entry.mk "hi" 0)]) [] [] [])).1
      = .ok (some "hi") ∧
    (FindEntry [171, 205, 239] 5
        (FsState.mk (.ok [("abcdef", Entry.mk "hi" 0)]) [] [] [])).2.index
      = .ok [("abcdef", Entry.mk "hi" 0)] ∧
    (lookupE (readJson (FindEntry [171, 205, 239] 5
        (FsState.mk (.ok [("abcdef", Entry.mk "hi" 0)]) [] [] [])).2.index).1
      "abcdef").map Entry.lastUsed = some 0 ∧
    (0 : Int) ≠ 5 :=
  ⟨rfl, rfl, rfl, by norm_num⟩

/-- C2 (amended): on an index hit, `FindEntry` returns the stored
content and re-saves the entry into the *sharded file tier* — leaving
the index file untouched and instead (re)creating the entry file with
the stored content and modification time `now`; the index's own
`lastUsed` is only refreshed later, when `Prune` migrates that file
back. -/
theorem findEntry_index_hit_saves_sharded (digest : List Nat) (now : Int)
    (s : FsState) (e : Entry)
    (h : lookupE (readJson s.index).1 (hexEncode digest) = some e) :
    FindEntry digest now s
        = (.ok (some e.content), SaveEntry digest e.content now s) ∧
      (SaveEntry digest e.content now s).index = s.index ∧
      findFile (SaveEntry digest e.content now s).files (shardTriple digest)
        = some (ShardFile.mk (shardTriple digest).1 (shardTriple digest).2.1
            (shardTriple digest).2.2 e.content now false false) := by
  refine ⟨?_, rfl, ?_⟩
  · simp only [FindEntry, checkJsonEntry, h]
  · simp only [SaveEntry, findFile]
    rw [List.find?_cons_of_pos _ (by simp)]
/-- Witness for the amended C2 on a concrete index-only state. -/
theorem findEntry_index_hit_saves_sharded_witness :
    lookupE (readJson (FsState.mk (.ok [("abcdef", Entry.mk "hi" 0)])
        [] [] []).index).1 (hexEncode [171, 205, 239])
      = some (Entry.mk "hi" 0) ∧
    (FindEntry [171, 205, 239] 5
        (FsState.mk (.ok [("abcdef", Entry.mk "hi" 0)]) [] [] [])
      = (.ok (some "hi"),
         SaveEntry [171, 205, 239] "hi" 5
           (FsState.mk (.ok [("abcdef", Entry.mk "hi" 0)]) [] [] [])) ∧
      (SaveEntry [171, 205, 239] "hi" 5
          (FsState.mk (.ok [("abcdef", Entry.mk "hi" 0)]) [] [] [])).index
        = (FsState.mk (.ok [("abcdef", Entry.mk "hi" 0)]) [] [] []).index ∧
      findFile (SaveEntry [171, 205, 239] "hi" 5
          (FsState.mk (.ok [("abcdef", Entry.mk "hi" 0)]) [] [] [])).files
          (shardTriple [171, 205, 239])
        = some (ShardFile.mk (shardTriple [171, 205, 239]).1
            (shardTriple [171, 205, 239]).2.1
            (shardTriple [171, 205, 239]).2.2 "hi" 5 false false)) :=
  ⟨rfl, findEntry_index_hit_saves_sharded [171, 205, 239] 5 _ (Entry.mk "hi" 0) rfl⟩

/-- C3 counterexample: the index already holds a stale entry `"old"`
for digest `abcdef` (6 ≥ 5 hex characters); after `SaveEntry` writes
`"new"` into the sharded tier, `FindEntry` still answers from the
index and returns `"old"`, not the saved content. -/
theorem save_find_roundtrip_cex :
    5 ≤ (hexEncode [171, 205, 239]).length ∧
    (FindEntry [171, 205, 239] 5
        (SaveEntry [171, 205, 239] "new" 3
          (FsState.mk (.ok [("abcdef", Entry.mk "old" 0)]) [] [] []))).1
      = .ok (some "old") ∧
    "old" ≠ "new" :=
  ⟨by decide, rfl, by decide⟩

/-- C3 (amended): for a digest with at least 5 hex characters, after
`SaveEntry` succeeds, `FindEntry` returns the saved content *provided
the consolidated index holds no entry for the digest* (otherwise the
index answer shadows the sharded tier): the round-trip through the
sharded tier holds exactly when the index does not intervene. -/
theorem save_find_roundtrip (digest : List Nat) (c : String)
    (now save_time : Int) (s : FsState)
    (_h5 : 5 ≤ (hexEncode digest).length)
    (hIdx : lookupE (readJson s.index).1 (hexEncode digest) = none) :
    (FindEntry digest now (SaveEntry digest c save_time s)).1
      = .ok (some c) := by
  have hidx2 : (SaveEntry digest c save_time s).index = s.index := rfl
  simp only [FindEntry, checkJsonEntry, hidx2, hIdx]
  simp only [checkFsEntry, SaveEntry, findFile]
  rw [List.find?_cons_of_pos _ (by simp)]
  simp
/-- Witness for the amended C3: fresh save then lookup on an
index-free state returns the saved content. -/
theorem save_find_roundtrip_witness :
    5 ≤ (hexEncode [171, 205, 239]).length ∧
    lookupE (readJson (FsState.mk .missing [] [] []).index).1
        (hexEncode [171, 205, 239]) = none ∧
    (FindEntry [171, 205, 239] 7
        (SaveEntry [171, 205, 239] "payload" 3
          (FsState.mk .missing [] [] []))).1
      = .ok (some "payload") :=
  ⟨by decide, rfl,
    save_find_roundtrip [171, 205, 239] "payload" 7 3 _ (by decide) rfl⟩

theorem removeDirs_mem_fail (fails : List String) (ds : List String) :
    ∀ files : List ShardFile, ∀ d ∈ ds, d ∈ fails →
      ∃ e, removeDirs fails ds files = .error e := by
  induction ds with
  | nil => intro files d hd; simp at hd
  | cons d' ds ih =>
    intro files d hd hf
    by_cases hd' : d' ∈ fails
    · exact ⟨"Error deleting path", by simp [removeDirs, hd']⟩
    · rcases List.mem_cons.mp hd with h1 | h1
      · exact absurd (h1 ▸ hf) hd'
      · simpa [removeDirs, hd'] using
          ih (files.filter (fun f => f.d1 ≠ d')) d h1 hf

/-- C9: if `os.RemoveAll` fails on a top-level shard directory during
`Prune`'s cleanup step, the whole pass aborts with an error (unlike
per-file read/delete failures during migration, which `migrate` merely
skips). -/
theorem prune_cleanup_failure_fatal (W now : Int) (s : FsState)
    (d : String) (hd : d ∈ s.topDirs) (hf : d ∈ s.dirFailures) :
    ∃ e, Prune W now s = .error e := by
  obtain ⟨e, he⟩ := removeDirs_mem_fail s.dirFailures s.topDirs
    (migrate (readJson s.index).1 s.files).2 d hd hf
  exact ⟨e, by simp only [Prune, he]⟩
/-- Witness for C9: one shard directory marked undeletable makes the
prune pass fail. -/
theorem prune_cleanup_failure_fatal_witness :
    "ab" ∈ (FsState.mk (.ok [])
        [ShardFile.mk "ab" "cd" "ef" "hello" 0 false false]
        ["ab"] ["ab"]).topDirs ∧
    "ab" ∈ (FsState.mk (.ok [])
        [ShardFile.mk "ab" "cd" "ef" "hello" 0 false false]
        ["ab"] ["ab"]).dirFailures ∧
    ∃ e, Prune 1 5 (FsState.mk (.ok [])
        [ShardFile.mk "ab" "cd" "ef" "hello" 0 false false]
        ["ab"] ["ab"]) = .error e :=
  ⟨by decide, by decide,
    prune_cleanup_failure_fatal 1 5 _ "ab" (by decide) (by decide)⟩

/-- C6: when every sharded file is readable, lives under a top-level
shard directory, and no directory removal fails, `Prune` succeeds; the
walk upserts every sharded file into the in-memory index under the key
`d1 ++ d2 ++ name` with the file's bytes and modification time
(overwriting whatever the loaded index had for that key), the sharded
tree is left empty (no files, no shard directories), and running
`Prune` again at the same time with the same window returns the same
state unchanged (idempotence). -/
theorem prune_migrates_all_and_idempotent (W now : Int) (s : FsState)
    (hread : ∀ f ∈ s.files, f.readFails = false)
    (hall : ∀ f ∈ s.files, f.d1 ∈ s.topDirs)
    (hclean : ∀ d ∈ s.topDirs, d ∉ s.dirFailures)
    (hnd : (s.files.map shardKey).Nodup) :
    ∃ s' : FsState, Prune W now s = .ok s' ∧
      s'.files = [] ∧ s'.topDirs = [] ∧
      (∀ f ∈ s.files,
        lookupE (migrate (readJson s.index).1 s.files).1 (shardKey f)
          = some ⟨f.content, f.modTime⟩) ∧
      Prune W now s' = .ok s' := by
  have hrd : removeDirs s.dirFailures s.topDirs
      (migrate (readJson s.index).1 s.files).2 = .ok ([], []) :=
    removeDirs_ok_empty s.dirFailures s.topDirs _ hclean
      (fun g hg => hall g (migrate_snd_subset s.files _ g hg))
  refine ⟨FsState.mk
      (.ok ((migrate (readJson s.index).1 s.files).1.filter
        (fun p => keepEntry now (durationNs W) p.2)))
      [] [] s.dirFailures, ?_, rfl, rfl, ?_, ?_⟩
  · simp only [Prune, hrd]
  · exact fun f hf => migrate_fst_lookup_mem s.files _ f hf hnd hread
  · show Except.ok (FsState.mk (.ok (((migrate (readJson s.index).1
        s.files).1.filter (fun p => keepEntry now (durationNs W) p.2)).filter
          (fun p => keepEntry now (durationNs W) p.2))) [] [] s.dirFailures)
      = _
    rw [filter_idem]
/-- Witness for C6 on a one-file cache with a stale index entry for the
same digest, which the migration overwrites. -/
theorem prune_migrates_all_and_idempotent_witness :
    (∀ f ∈ (FsState.mk (.ok [("abcdef", Entry.mk "stale" 3)])
        [ShardFile.mk "ab" "cd" "ef" "hello" 0 false false]
        ["ab"] []).files, f.readFails = false) ∧
    ∃ s' : FsState,
      Prune 1 5 (FsState.mk (.ok [("abcdef", Entry.mk "stale" 3)])
        [ShardFile.mk "ab" "cd" "ef" "hello" 0 false false]
        ["ab"] []) = .ok s' ∧
      s'.files = [] ∧ s'.topDirs = [] ∧
      (∀ f ∈ (FsState.mk (.ok [("abcdef", Entry.mk "stale" 3)])
          [ShardFile.mk "ab" "cd" "ef" "hello" 0 false false]
          ["ab"] []).files,
        lookupE (migrate (readJson (FsState.mk
            (.ok [("abcdef", Entry.mk "stale" 3)])
            [ShardFile.mk "ab" "cd" "ef" "hello" 0 false false]
            ["ab"] []).index).1
          (FsState.mk (.ok [("abcdef", Entry.mk "stale" 3)])
            [ShardFile.mk "ab" "cd" "ef" "hello" 0 false false]
            ["ab"] []).files).1 (shardKey f)
          = some ⟨f.content, f.modTime⟩) ∧
      Prune 1 5 s' = .ok s' :=
  ⟨by decide,
    prune_migrates_all_and_idempotent 1 5
      (FsState.mk (.ok [("abcdef", Entry.mk "stale" 3)])
        [ShardFile.mk "ab" "cd" "ef" "hello" 0 false false] ["ab"] [])
      (by decide) (by decide) (by decide) (by decide)⟩

/-- C10: after a `Prune` pass whose cleanup succeeds, nothing remains
under the cache root but the index file (no sharded files, no shard
directories); a file skipped during migration because its read failed
is deleted with its directory anyway, and its digest is absent from the
final index — its content is permanently lost, not left for a later
pass. -/
theorem prune_skipped_entry_lost (W now : Int) (s : FsState)
    (f : ShardFile) (_hmem : f ∈ s.files) (_hread : f.readFails = true)
    (hclean : ∀ d ∈ s.topDirs, d ∉ s.dirFailures)
    (hall : ∀ g ∈ s.files, g.d1 ∈ s.topDirs)
    (hIdx : lookupE (readJson s.index).1 (shardKey f) = none)
    (hkey : ∀ g ∈ s.files, g.readFails = false → shardKey g ≠ shardKey f) :
    ∃ s' : FsState, Prune W now s = .ok s' ∧
      s'.files = [] ∧ s'.topDirs = [] ∧
      lookupE (readJson s'.index).1 (shardKey f) = none := by
  have hrd : removeDirs s.dirFailures s.topDirs
      (migrate (readJson s.index).1 s.files).2 = .ok ([], []) :=
    removeDirs_ok_empty s.dirFailures s.topDirs _ hclean
      (fun g hg => hall g (migrate_snd_subset s.files _ g hg))
  refine ⟨FsState.mk
      (.ok ((migrate (readJson s.index).1 s.files).1.filter
        (fun p => keepEntry now (durationNs W) p.2)))
      [] [] s.dirFailures, ?_, rfl, rfl, ?_⟩
  · simp only [Prune, hrd]
  · have hm : lookupE (migrate (readJson s.index).1 s.files).1 (shardKey f)
        = none := by
      rw [migrate_fst_lookup_untouched s.files _ (shardKey f) ?hcov]
      · exact hIdx
      case hcov =>
        intro g hg
        by_cases hgr : g.readFails
        · exact Or.inr hgr
        · exact Or.inl (hkey g hg (by simpa using hgr))
    exact lookupE_none_filter _ _ _ hm
/-- Witness for C10: a cache whose single sharded file is unreadable;
prune still wipes the tree and the file's digest stays out of the
index. -/
theorem prune_skipped_entry_lost_witness :
    ShardFile.mk "ab" "cd" "ef" "hello" 0 true false
        ∈ (FsState.mk .missing
            [ShardFile.mk "ab" "cd" "ef" "hello" 0 true false]
            ["ab"] []).files ∧
    ∃ s' : FsState,
      Prune 1 5 (FsState.mk .missing
          [ShardFile.mk "ab" "cd" "ef" "hello" 0 true false]
          ["ab"] []) = .ok s' ∧
      s'.files = [] ∧ s'.topDirs = [] ∧
      lookupE (readJson s'.index).1
        (shardKey (ShardFile.mk "ab" "cd" "ef" "hello" 0 true false))
        = none :=
  ⟨by decide,
    prune_skipped_entry_lost 1 5
      (FsState.mk .missing
        [ShardFile.mk "ab" "cd" "ef" "hello" 0 true false] ["ab"] [])
      (ShardFile.mk "ab" "cd" "ef" "hello" 0 true false)
      (by decide) rfl (by decide) (by decide) rfl (by decide)⟩

/-! ## Path-resolver lemmas (C8) -/

theorem hexDigit_inj_fin (a b : Fin 16)
    (h : hexDigit a.val = hexDigit b.val) : a = b := by
  revert h; revert a b; decide

theorem hexDigit_inj {n m : Nat} (hn : n < 16) (hm : m < 16)
    (h : hexDigit n = hexDigit m) : n = m :=
  congrArg Fin.val (hexDigit_inj_fin ⟨n, hn⟩ ⟨m, hm⟩ h)

theorem hexByte_inj {b b' : Nat} (hb : b < 256) (hb' : b' < 256)
    (h : hexByte b = hexByte b') : b = b' := by
  simp only [hexByte, List.cons.injEq, and_true] at h
  have e1 : b % 256 / 16 = b' % 256 / 16 :=
    hexDigit_inj (by omega) (by omega) h.1
  have e2 : b % 16 = b' % 16 := hexDigit_inj (by omega) (by omega) h.2
  omega

theorem hexEncode_data_length (ds : List Nat) :
    (hexEncode ds).data.length = 2 * ds.length := by
  induction ds with
  | nil => rfl
  | cons d ds ih =>
    show (hexByte d ++ (ds.map hexByte).flatten).length = 2 * (d :: ds).length
    rw [List.length_append]
    have ihl : (List.map hexByte ds).flatten.length = 2 * ds.length := ih
    simp [hexByte, ihl, List.length_cons]
    ring

theorem shardTriple_cons (b : Nat) (rest : List Nat) :
    shardTriple (b :: rest) =
      (String.mk (hexByte b), (hexEncode rest).take 2,
        (hexEncode rest).drop 2) := by
  show ((hexEncode (b :: rest)).take 2,
      ((hexEncode (b :: rest)).drop 2).take 2,
      (hexEncode (b :: rest)).drop 4) = _
  have he : hexEncode (b :: rest)
      = String.mk (hexByte b ++ (rest.map hexByte).flatten) := rfl
  rw [he, String.take_eq, String.drop_eq, String.drop_eq, String.take_eq]
  simp [hexByte, hexEncode, String.take_eq, String.drop_eq]

theorem pathJoin_ne_empty (x u : String) (hu : u ≠ "") :
    pathJoin x u ≠ "" := by
  by_cases hx : x = ""
  · simpa [pathJoin, hx] using hu
  · intro h
    have hd := congrArg String.data h
    simp [pathJoin, hx, hu] at hd

theorem pathJoin_data_length (x u : String) (hu : u ≠ "") (hx : x ≠ "") :
    (pathJoin x u).data.length = x.data.length + (1 + u.data.length) := by
  have : pathJoin x u = x ++ "/" ++ u := by simp [pathJoin, hx, hu]
  rw [this]
  simp [List.length_append]
  ring

theorem pathJoin_ne_of_ne_right (x u v : String) (huv : u ≠ v)
    (hu : u ≠ "") (hv : v ≠ "") : pathJoin x u ≠ pathJoin x v := by
  by_cases hx : x = ""
  · simpa [pathJoin, hx] using huv
  · intro h
    have hd := congrArg String.data h
    simp only [pathJoin, if_neg hx, if_neg hu, if_neg hv,
      String.data_append, List.append_assoc] at hd
    have := List.append_cancel_left hd
    have := List.append_cancel_left this
    exact huv (String.ext this)

theorem pathJoin_ne_of_ne_left (x y u v : String)
    (hlen : x.data.length = y.data.length) (hxy : x ≠ y)
    (hx : x ≠ "") (hy : y ≠ "") (hu : u ≠ "") (hv : v ≠ "") :
    pathJoin x u ≠ pathJoin y v := by
  intro h
  have hd := congrArg String.data h
  simp only [pathJoin, if_neg hx, if_neg hy, if_neg hu, if_neg hv,
    String.data_append, List.append_assoc] at hd
  exact hxy (String.ext (List.append_inj_left hd hlen))

/-- C8: path resolution is a pure function of root and digest: for a
digest of at least 5 hex characters it returns
`shardDir = root/hex[0:2]/hex[2:4]` and `entryPath = shardDir/hex[4:]`
(first conjunct, definitional), and two digests differing only in their
first byte — i.e. only in the first two hex characters — resolve to
different shard directories and distinct entry paths (no collision). -/
theorem defineEntryPath_partition (root : String) (b b' : Nat)
    (rest : List Nat) (hb : b < 256) (hb' : b' < 256) (hne : b ≠ b')
    (h5 : 5 ≤ (hexEncode (b :: rest)).length) :
    defineEntryPath root (b :: rest)
      = (pathJoin (pathJoin root ((hexEncode (b :: rest)).take 2))
          (((hexEncode (b :: rest)).drop 2).take 2),
         pathJoin (pathJoin (pathJoin root ((hexEncode (b :: rest)).take 2))
            (((hexEncode (b :: rest)).drop 2).take 2))
          ((hexEncode (b :: rest)).drop 4)) ∧
    (defineEntryPath root (b :: rest)).1
      ≠ (defineEntryPath root (b' :: rest)).1 ∧
    (defineEntryPath root (b :: rest)).2
      ≠ (defineEntryPath root (b' :: rest)).2 := by
  have hA0 : String.mk (hexByte b) ≠ "" := fun h => by
    simpa [hexByte] using congrArg String.data h
  have hA0' : String.mk (hexByte b') ≠ "" := fun h => by
    simpa [hexByte] using congrArg String.data h
  have hAne : String.mk (hexByte b) ≠ String.mk (hexByte b') :=
    fun h => hne (hexByte_inj hb hb' (congrArg String.data h))
  have hrest : 2 ≤ rest.length := by
    have hl : (hexEncode (b :: rest)).data.length = 2 * (rest.length + 1) := by
      rw [hexEncode_data_length, List.length_cons]
    have h5' : 5 ≤ (hexEncode (b :: rest)).data.length := by
      have he : (hexEncode (b :: rest)).length
          = (hexEncode (b :: rest)).data.length := rfl
      rw [he] at h5; exact h5
    omega
  have hBlen : ((hexEncode rest).take 2).data.length = 2 := by
    rw [String.data_take, List.length_take, hexEncode_data_length]
    omega
  have hBne : (hexEncode rest).take 2 ≠ "" := by
    intro h; rw [h] at hBlen; simp at hBlen
  have hClen : ((hexEncode rest).drop 2).data.length
      = 2 * rest.length - 2 := by
    rw [String.data_drop, List.length_drop, hexEncode_data_length]
  have hCne : (hexEncode rest).drop 2 ≠ "" := by
    intro h; rw [h] at hClen; simp at hClen; omega
  have hx0 : pathJoin root (String.mk (hexByte b)) ≠ "" :=
    pathJoin_ne_empty _ _ hA0
  have hx0' : pathJoin root (String.mk (hexByte b')) ≠ "" :=
    pathJoin_ne_empty _ _ hA0'
  have hxy : pathJoin root (String.mk (hexByte b))
      ≠ pathJoin root (String.mk (hexByte b')) :=
    pathJoin_ne_of_ne_right root _ _ hAne hA0 hA0'
  have hxlen : (pathJoin root (String.mk (hexByte b))).data.length
      = (pathJoin root (String.mk (hexByte b'))).data.length := by
    by_cases hroot : root = ""
    · simp [pathJoin, hroot, hA0, hA0', hexByte]
    · rw [pathJoin_data_length _ _ hA0 hroot,
        pathJoin_data_length _ _ hA0' hroot]
      simp [hexByte]
  have hdir : pathJoin (pathJoin root (String.mk (hexByte b)))
        ((hexEncode rest).take 2)
      ≠ pathJoin (pathJoin root (String.mk (hexByte b')))
        ((hexEncode rest).take 2) :=
    pathJoin_ne_of_ne_left _ _ _ _ hxlen hxy hx0 hx0' hBne hBne
  have hdir0 : pathJoin (pathJoin root (String.mk (hexByte b)))
      ((hexEncode rest).take 2) ≠ "" := pathJoin_ne_empty _ _ hBne
  have hdir0' : pathJoin (pathJoin root (String.mk (hexByte b')))
      ((hexEncode rest).take 2) ≠ "" := pathJoin_ne_empty _ _ hBne
  have hdirlen : (pathJoin (pathJoin root (String.mk (hexByte b)))
        ((hexEncode rest).take 2)).data.length
      = (pathJoin (pathJoin root (String.mk (hexByte b')))
        ((hexEncode rest).take 2)).data.length := by
    rw [pathJoin_data_length _ _ hBne hx0,
      pathJoin_data_length _ _ hBne hx0', hxlen]
  have hpath : pathJoin (pathJoin (pathJoin root (String.mk (hexByte b)))
        ((hexEncode rest).take 2)) ((hexEncode rest).drop 2)
      ≠ pathJoin (pathJoin (pathJoin root (String.mk (hexByte b')))
        ((hexEncode rest).take 2)) ((hexEncode rest).drop 2) :=
    pathJoin_ne_of_ne_left _ _ _ _ hdirlen hdir hdir0 hdir0' hCne hCne
  refine ⟨?_, ?_, ?_⟩
  · simp only [defineEntryPath, shardTriple]
  · simpa only [defineEntryPath, shardTriple_cons] using hdir
  · simpa only [defineEntryPath, shardTriple_cons] using hpath
/-- Witness for C8: root `"r"`, digests `ab0102` and `ac0102`, which
differ only in their first two hex characters. -/
theorem defineEntryPath_partition_witness :
    (171 : Nat) < 256 ∧ (172 : Nat) < 256 ∧ (171 : Nat) ≠ 172 ∧
    5 ≤ (hexEncode [171, 1, 2]).length ∧
    (defineEntryPath "r" [171, 1, 2]
      = (pathJoin (pathJoin "r" ((hexEncode [171, 1, 2]).take 2))
          (((hexEncode [171, 1, 2]).drop 2).take 2),
         pathJoin (pathJoin (pathJoin "r" ((hexEncode [171, 1, 2]).take 2))
            (((hexEncode [171, 1, 2]).drop 2).take 2))
          ((hexEncode [171, 1, 2]).drop 4)) ∧
      (defineEntryPath "r" [171, 1, 2]).1
        ≠ (defineEntryPath "r" [172, 1, 2]).1 ∧
      (defineEntryPath "r" [171, 1, 2]).2
        ≠ (defineEntryPath "r" [172, 1, 2]).2) :=
  ⟨by norm_num, by norm_num, by norm_num, by decide,
    defineEntryPath_partition "r" 171 172 [1, 2] (by norm_num) (by norm_num)
      (by norm_num) (by decide)⟩
